import Mathlib

/-!
Verification of the batched PostgreSQL table/query export tool (src/main.py)
against its natural-language specification.

The development shallow-embeds the core of `PostgreSQLBackup`:
the value formatter `_format_value`, the pagination loop and bulk
insert-statement batching of `backup_table`, the output-file framing, and the
per-job error isolation of `backup_database`.  Python loops are embedded as
fuel-based structural recursions (the wrappers supply provably sufficient
fuel), Python `Decimal` values as sign/coefficient/exponent triples, and
CPython `float` (IEEE-754 binary64) values as exact sign/significand/scale
triples, with `float(Decimal)` modelled as correct round-to-nearest-even at
53-bit precision, with subnormal granularity 2^-1074 and overflow at 2^1024
- exactly the conversion CPython performs.
-/

namespace DumpBackup

/-! ## Characters, digits and small string helpers -/

/-- The single-quote character (codepoint 39). -/
def sqChar : Char := Char.ofNat 39

/-- A one-character string holding a single quote. -/
def sq : String := String.singleton sqChar

/-- ASCII digit test (codepoints 48-57). -/
def isAsciiDigit (c : Char) : Bool := 48 ≤ c.toNat && c.toNat ≤ 57

/-- Numeric value of an ASCII digit character. -/
def digitVal (c : Char) : Nat := c.toNat - 48

/-- The ASCII digit character for `d < 10`. -/
def digitChar (d : Nat) : Char := Char.ofNat (48 + d)

/-- Decimal digit characters of `n`, most significant first; fuel-based
structural recursion (`natStr` supplies ample fuel). -/
def natDigitsF : Nat → Nat → List Char
  | 0, _ => []
  | f + 1, n => if n < 10 then [digitChar n] else natDigitsF f (n / 10) ++ [digitChar (n % 10)]

/-- Decimal string of a natural number, as Python `str` renders it. -/
def natStr (n : Nat) : String := String.mk (natDigitsF (n + 1) n)

/-- Decimal string of an integer, as Python `str` renders it. -/
def intStr (n : Int) : String := if n < 0 then "-" ++ natStr n.natAbs else natStr n.natAbs

/-- Nat denoted by a list of ASCII digit characters (most significant first). -/
def natOfDigits (l : List Char) : Nat := l.foldl (fun a c => a * 10 + digitVal c) 0

/-- ASCII lower-casing of one character; models Python `str.lower` on the
ASCII type strings the tool receives from the catalog. -/
def asciiLowerC (c : Char) : Char :=
  if 65 ≤ c.toNat && c.toNat ≤ 90 then Char.ofNat (c.toNat + 32) else c

/-- ASCII lower-casing of a string. -/
def strLower (s : String) : String := String.mk (s.data.map asciiLowerC)

/-- Substring containment on character lists: models the Python `in`
operator on strings. -/
def listContainsSub (hay pat : List Char) : Bool :=
  match hay with
  | [] => pat.isEmpty
  | _ :: t => pat.isPrefixOf hay || listContainsSub t pat

/-- Python truthiness-guarded check `data_type and 'numeric' in
data_type.lower()` from `_format_value`: `None` (and the falsy empty string,
which contains no substring anyway) yield `false`. -/
def typeHasNumeric (dt : Option String) : Bool :=
  match dt with
  | Option.none => false
  | some s => listContainsSub (strLower s).data "numeric".data

/-- Reads a leading run of ASCII digits, returning its value and the rest;
returns `none` when there is no leading digit.  Used to model the `\d+`
groups of the regex in `_format_value`. -/
def readNatDigits (cs : List Char) : Option (Nat × List Char) :=
  let ds := cs.takeWhile isAsciiDigit
  if ds.isEmpty then Option.none else some (natOfDigits ds, cs.dropWhile isAsciiDigit)

/-- Models `re.match(r'numeric\((\d+),(\d+)\)', data_type.lower())` from
`_format_value`: an anchored (prefix, not full-string) match returning
`(precision, scale)`. -/
def numericTypePS (dt : String) : Option (Nat × Nat) :=
  let cs := (strLower dt).data
  let pre := "numeric(".data
  if pre.isPrefixOf cs then
    match readNatDigits (cs.drop pre.length) with
    | some (p, r1) =>
      match r1 with
      | c :: r2 =>
        if c.toNat = 44 then
          match readNatDigits r2 with
          | some (s, r3) =>
            match r3 with
            | c2 :: _ => if c2.toNat = 41 then some (p, s) else Option.none
            | [] => Option.none
          | Option.none => Option.none
        else Option.none
      | [] => Option.none
    | Option.none => Option.none
  else Option.none

/-- The precision/scale match over the optional declared type string. -/
def numericTypePSOpt (dt : Option String) : Option (Nat × Nat) :=
  match dt with
  | some s => numericTypePS s
  | Option.none => Option.none

/-! ## Python `Decimal` model

A finite decimal is a sign, an unsigned coefficient and a base-10 exponent,
exactly the representation of the Python `decimal` module; `NaN` and
signed infinity cover the special values accepted by the `Decimal`
constructor.  Context-precision rounding (default 28 significant digits,
relevant to `normalize` only beyond 28 digits) and NaN payloads are outside
the model. -/

inductive PyDecimal where
  | num (sgn : Bool) (coeff : Nat) (exp : Int)
  | nan
  | inf (sgn : Bool)
deriving DecidableEq

/-- Strips factors of 10 from the coefficient, bumping the exponent;
fuel-based (`normalizeDec` supplies the coefficient itself as ample fuel). -/
def stripTrailingZeros : Nat → Nat → Int → Nat × Int
  | 0, c, e => (c, e)
  | f + 1, c, e => if c % 10 = 0 ∧ c ≠ 0 then stripTrailingZeros f (c / 10) (e + 1) else (c, e)

/-- Models `Decimal.normalize()`: trailing zeros are stripped, a zero gets
exponent 0, specials pass through. -/
def normalizeDec : PyDecimal → PyDecimal
  | PyDecimal.num sgn c e =>
    if c = 0 then PyDecimal.num sgn 0 0
    else
      let p := stripTrailingZeros c c e
      PyDecimal.num sgn p.1 p.2
  | d => d

/-- Models `str(Decimal)`, the to-scientific-string conversion of the
General Decimal Arithmetic specification that CPython implements: plain
notation when `exp ≤ 0` and the adjusted exponent is at least -6,
scientific notation otherwise. -/
def strOfPyDecimal : PyDecimal → String
  | PyDecimal.nan => "NaN"
  | PyDecimal.inf b => if b then "-Infinity" else "Infinity"
  | PyDecimal.num sgn c e =>
    let ds := natDigitsF (c + 1) c
    let n : Int := ds.length
    let adj : Int := e + n - 1
    let sign := if sgn then "-" else ""
    let body :=
      if e ≤ 0 ∧ -6 ≤ adj then
        if e = 0 then String.mk ds
        else if 0 ≤ adj then
          String.mk (ds.take (adj.toNat + 1)) ++ "." ++ String.mk (ds.drop (adj.toNat + 1))
        else
          "0." ++ String.mk (List.replicate ((-e).toNat - ds.length) (digitChar 0)) ++ String.mk ds
      else
        String.mk (ds.take 1) ++ (if ds.length > 1 then "." ++ String.mk (ds.drop 1) else "")
          ++ "E" ++ (if 0 ≤ adj then "+" ++ natStr adj.toNat else "-" ++ natStr (-adj).toNat)
    sign ++ body

/-! ### Parsing: the `Decimal(str)` constructor

Models CPython `Decimal(string)` on ASCII input: leading/trailing ASCII
whitespace is stripped and underscores are removed throughout (per the
`decimal` module documentation), then the numeric-string grammar
`[sign] (digits [. digits?] | . digits) [(e|E) [sign] digits]`, the
infinities and the NaNs are accepted.  Non-ASCII digit forms are outside
the model. -/

/-- ASCII whitespace as stripped by `str.strip` on ASCII text. -/
def isPyWS (c : Char) : Bool :=
  c.toNat = 32 || c.toNat = 9 || c.toNat = 10 || c.toNat = 11 || c.toNat = 12 || c.toNat = 13

/-- Strips leading and trailing whitespace characters. -/
def trimWS (cs : List Char) : List Char :=
  ((cs.dropWhile isPyWS).reverse.dropWhile isPyWS).reverse

/-- Splits off a leading `+`/`-` sign; the Bool is true for `-`. -/
def readSignSplit (cs : List Char) : Bool × List Char :=
  match cs with
  | c :: t => if c.toNat = 43 then (false, t) else if c.toNat = 45 then (true, t) else (false, cs)
  | [] => (false, [])

/-- Splits the input at the first `e`/`E` exponent marker. -/
def splitAtExpMark : List Char → List Char × Option (List Char)
  | [] => ([], Option.none)
  | c :: t =>
    if c.toNat = 101 || c.toNat = 69 then ([], some t)
    else
      let r := splitAtExpMark t
      (c :: r.1, r.2)

/-- Reads the exponent part: optional sign then one or more digits, nothing
after. -/
def readExpVal (cs : List Char) : Option Int :=
  let p := readSignSplit cs
  if p.2.isEmpty then Option.none
  else if p.2.all isAsciiDigit then
    some (if p.1 then -(natOfDigits p.2 : Int) else (natOfDigits p.2 : Int))
  else Option.none

/-- Reads the mantissa `digits [. digits?] | . digits` (at least one digit in
total), returning the coefficient and the count of fractional digits. -/
def readMantissa (cs : List Char) : Option (Nat × Nat) :=
  let ip := cs.takeWhile isAsciiDigit
  let rest := cs.dropWhile isAsciiDigit
  match rest with
  | [] => if ip.isEmpty then Option.none else some (natOfDigits ip, 0)
  | c :: t =>
    if c.toNat = 46 then
      let fp := t.takeWhile isAsciiDigit
      let r2 := t.dropWhile isAsciiDigit
      if r2.isEmpty then
        if ip.isEmpty && fp.isEmpty then Option.none
        else some (natOfDigits (ip ++ fp), fp.length)
      else Option.none
    else Option.none

/-- True when the (lower-cased, sign-stripped) input is a NaN token:
`nan` or `snan`, optionally followed by a digit payload. -/
def isNanChars (low : List Char) : Bool :=
  ("nan".data.isPrefixOf low && (low.drop 3).all isAsciiDigit)
    || ("snan".data.isPrefixOf low && (low.drop 4).all isAsciiDigit)

/-- Models the `Decimal(string)` constructor; `none` models the
`InvalidOperation` exception swallowed by the bare `except` in
`_format_value`. -/
def decimalFromChars (cs0 : List Char) : Option PyDecimal :=
  let cs1 := (trimWS cs0).filter (fun c => c.toNat ≠ 95)
  let p := readSignSplit cs1
  let sgn := p.1
  let cs2 := p.2
  let low := cs2.map asciiLowerC
  if low = "inf".data ∨ low = "infinity".data then some (PyDecimal.inf sgn)
  else if isNanChars low then some PyDecimal.nan
  else
    let m := splitAtExpMark cs2
    match readMantissa m.1 with
    | Option.none => Option.none
    | some (coeff, fracLen) =>
      match m.2 with
      | Option.none => some (PyDecimal.num sgn coeff (-(fracLen : Int)))
      | some ec =>
        match readExpVal ec with
        | Option.none => Option.none
        | some ev => some (PyDecimal.num sgn coeff (ev - fracLen))

/-! ## CPython `float` model

A CPython `float` is an IEEE-754 binary64 value.  A finite float is carried
exactly as a sign and a magnitude `m * 2^scl`; `float(Decimal)` is modelled
as correct round-to-nearest (ties to even) at 53 significant bits, with
subnormal granularity 2^-1074 and `OverflowError` when the rounded
magnitude reaches 2^1024 - exactly CPython's correctly-rounded conversion.
Exact nonnegative rationals appear only transiently, as raw
numerator/denominator pairs of naturals (`Frac`), never normalized. -/

/-- A nonnegative rational as a raw numerator/denominator pair (the
denominator is a positive power of 2 times a power of 10 everywhere it is
built below). -/
abbrev Frac : Type := Nat × Nat

/-- Fraction comparison by cross-multiplication. -/
def fracLE (a b : Frac) : Bool := a.1 * b.2 ≤ b.1 * a.2

/-- Strict fraction comparison by cross-multiplication. -/
def fracLT (a b : Frac) : Bool := a.1 * b.2 < b.1 * a.2

/-- Multiplies a fraction by 2 to an integer power. -/
def fracMulPow2 (a : Frac) (k : Int) : Frac :=
  if 0 ≤ k then (a.1 * 2 ^ k.toNat, a.2) else (a.1, a.2 * 2 ^ (-k).toNat)

/-- 2 to an integer power, as a fraction. -/
def pow2Frac (e : Int) : Frac :=
  if 0 ≤ e then ((2 : Nat) ^ e.toNat, 1) else (1, (2 : Nat) ^ (-e).toNat)

/-- The magnitude `c * 10^e` of a finite decimal, as a fraction. -/
def decMagFrac (c : Nat) (e : Int) : Frac :=
  if 0 ≤ e then (c * 10 ^ e.toNat, 1) else (c, 10 ^ (-e).toNat)

/-- Floor of the base-2 logarithm, fuel-based (`natLog2` supplies `n` itself
as ample fuel). -/
def natLog2F : Nat → Nat → Nat
  | 0, _ => 0
  | f + 1, n => if 2 ≤ n then natLog2F f (n / 2) + 1 else 0

/-- Floor of the base-2 logarithm of a natural number. -/
def natLog2 (n : Nat) : Nat := natLog2F n n

/-- The unique `e` with `2^e ≤ a < 2^(e+1)` for a positive fraction `a`,
computed from an integer log2 candidate and corrected against the defining
inequality. -/
def floorLog2Frac (a : Frac) : Int :=
  let e0 : Int :=
    if fracLE (1, 1) a then (natLog2 (a.1 / a.2) : Int) else -(natLog2 (a.2 / a.1) : Int) - 1
  let e1 := if fracLE (pow2Frac (e0 + 1)) a then e0 + 1 else e0
  if fracLT a (pow2Frac e1) then e1 - 1 else e1

/-- Round-to-nearest with ties to even of a nonnegative fraction. -/
def roundHalfEvenFrac (a : Frac) : Nat :=
  let q := a.1 / a.2
  let r := a.1 % a.2
  if 2 * r < a.2 then q
  else if a.2 < 2 * r then q + 1
  else if q % 2 = 0 then q else q + 1

inductive PyFloat where
  | finite (sgn : Bool) (m : Nat) (scl : Int)
  | nan
  | inf (sgn : Bool)
deriving DecidableEq

/-- Models `float(decimal_value)`: correctly rounded conversion to binary64
(the binary significand and scale are computed exactly), raising
`OverflowError` (the `Except.error`) when the rounded magnitude reaches
2^1024. -/
def decimalToFloat : PyDecimal → Except Unit PyFloat
  | PyDecimal.nan => Except.ok PyFloat.nan
  | PyDecimal.inf b => Except.ok (PyFloat.inf b)
  | PyDecimal.num sgn c e =>
    if c = 0 then Except.ok (PyFloat.finite sgn 0 0)
    else
      let a := decMagFrac c e
      let eL := floorLog2Frac a
      let scl : Int := max (eL - 52) (-1074)
      let m := roundHalfEvenFrac (fracMulPow2 a (-scl))
      if fracLE (pow2Frac 1024) (fracMulPow2 (m, 1) scl) then Except.error ()
      else Except.ok (PyFloat.finite sgn m scl)

/-- Models `'{:.<scale>f}'.format(x)` on a CPython float: the exact binary
value is rounded to `scale` fractional digits (ties to even) and rendered
in fixed-point notation with the float's sign, with no decimal point when
`scale = 0`; `nan` and infinities render as their float format tokens. -/
def formatFloatFixed (scale : Nat) : PyFloat → String
  | PyFloat.nan => "nan"
  | PyFloat.inf b => if b then "-inf" else "inf"
  | PyFloat.finite sgn m scl =>
    let n := roundHalfEvenFrac (fracMulPow2 (m * 10 ^ scale, 1) scl)
    let ds0 := natDigitsF (n + 1) n
    let ds := if ds0.length < scale + 1 then
        List.replicate (scale + 1 - ds0.length) (digitChar 0) ++ ds0
      else ds0
    let body :=
      if scale = 0 then String.mk ds
      else String.mk (ds.take (ds.length - scale)) ++ "." ++ String.mk (ds.drop (ds.length - scale))
    (if sgn then "-" else "") ++ body

/-! ## Python values and `_format_value`

The dynamic value universe over which `_format_value` dispatches: `None`,
`bool`, `int`, `str`, `Decimal`, and an opaque fallback object carried by
its `str()` text (dates, timestamps, UUIDs, ...).  Binary `float` inputs
are outside the model (their formatting path is `str(value)`, whose
shortest-roundtrip repr is not modelled); no verified claim quantifies over
float inputs. -/

inductive PyValue where
  | none
  | bool (b : Bool)
  | int (n : Int)
  | str (s : String)
  | decimal (d : PyDecimal)
  | obj (text : String)
deriving DecidableEq

/-- Models Python `str(value)` for the modelled value kinds. -/
def pyStr : PyValue → String
  | PyValue.none => "None"
  | PyValue.bool true => "True"
  | PyValue.bool false => "False"
  | PyValue.int n => intStr n
  | PyValue.str s => s
  | PyValue.decimal d => strOfPyDecimal d
  | PyValue.obj s => s

/-- Models `isinstance(value, Decimal)`. -/
def isDecimalV : PyValue → Bool
  | PyValue.decimal _ => true
  | _ => false

/-- Models `isinstance(value, str)`. -/
def isStrV : PyValue → Bool
  | PyValue.str _ => true
  | _ => false

/-- Models `isinstance(value, (int, float))`.  Python `bool` is a subclass
of `int`, so booleans satisfy this check. -/
def isIntLikeV : PyValue → Bool
  | PyValue.int _ => true
  | PyValue.bool _ => true
  | _ => false

/-- Models `isinstance(value, bool)`. -/
def isBoolV : PyValue → Bool
  | PyValue.bool _ => true
  | _ => false

/-- Models `Decimal(str(value)) if not isinstance(value, Decimal) else
value`; `none` models a raised exception. -/
def decConv : PyValue → Option PyDecimal
  | PyValue.decimal d => some d
  | v => decimalFromChars (pyStr v).data

/-- Models `value.replace("'", "''")`: each single-quote character is
doubled (single-character pattern, so the replacement is per-character). -/
def escapeQuotes (s : String) : String :=
  String.mk (s.data.foldr (fun c acc => if c.toNat = 39 then c :: c :: acc else c :: acc) [])

/-- Wraps the escaped text in single quotes, as the f-string
`f"'{escaped_value}'"` does. -/
def quoteLit (s : String) : String := sq ++ escapeQuotes s ++ sq

/-- The body of the `try` block of the numeric branch of `_format_value`,
after the conversion to `Decimal` succeeded: with a declared
`numeric(p,s)` type, format `float(decimal_value)` to `s` fractional
digits (an `OverflowError` from `float()` is caught by the bare `except`,
which returns `str(value)`); otherwise `str(decimal_value.normalize())`. -/
def numericRender (value : PyValue) (dataType : Option String) (dec : PyDecimal) : String :=
  if typeHasNumeric dataType then
    match numericTypePSOpt dataType with
    | some ps =>
      match decimalToFloat dec with
      | Except.error _ => pyStr value
      | Except.ok f => formatFloatFixed ps.2 f
    | Option.none => strOfPyDecimal (normalizeDec dec)
  else strOfPyDecimal (normalizeDec dec)

/-- Shallow embedding of `PostgreSQLBackup._format_value(value, data_type)`.
The branch order follows the source: `None`, the numeric/Decimal branch
with its bare `except` returning `str(value)`, `str`, `(int, float)` (which
captures booleans, since `bool` is a subclass of `int`), the unreachable
dedicated `bool` branch, then the quoted fallback. -/
def formatValue (value : PyValue) (dataType : Option String) : String :=
  match value with
  | PyValue.none => "NULL"
  | v =>
    if isDecimalV v || typeHasNumeric dataType then
      match decConv v with
      | Option.none => pyStr v
      | some dec => numericRender v dataType dec
    else if isStrV v then quoteLit (pyStr v)
    else if isIntLikeV v then pyStr v
    else if isBoolV v then (if v = PyValue.bool true then "TRUE" else "FALSE")
    else quoteLit (pyStr v)

/-! ## `backup_table`: framing, bulk insert batching and pagination

One table row is the list of its column values; column metadata is the
introspected `(column_name, data_type)` list, in ordinal position order.
Python's unbounded `while` loops are embedded as fuel-based structural
recursions; the wrappers supply fuel that the accompanying lemmas prove
sufficient. -/

/-- One fetched row, `SELECT *` column order. -/
abbrev PyRow : Type := List PyValue

/-- Renders one row as `(v1, v2, ...)`: the `value_stmt` of the source,
formatting each column value with its introspected data type
(`dict(zip(column_names, row))` followed by per-column lookup is positional
for the distinct catalog column names). -/
def renderRow (cols : List (String × String)) (row : PyRow) : String :=
  "(" ++ String.intercalate ", " ((cols.zip row).map (fun p => formatValue p.2 (some p.1.2))) ++ ")"

/-- Renders one bulk group as a single `INSERT` statement, the
`insert_stmt` f-string of the source (explicit column list, multi-row
`VALUES`, trailing `;\n`). -/
def renderInsert (q : String) (cols : List (String × String)) (group : List PyRow) : String :=
  "INSERT INTO " ++ q ++ " (" ++ String.intercalate ", " (cols.map Prod.fst) ++ ") VALUES "
    ++ String.intercalate ", " (group.map (renderRow cols)) ++ ";\n"

/-- The inner bulk-insert loop of `backup_table` on the fetched page: slices
`rows[loweroffset:upperinsert]` while nonempty, then sets
`loweroffset = upperinsert` and advances `upperinsert` by 10, clamping it to
`len(rows)`.  Returns the emitted row groups in order; fuel-based
(`bulkGroups` supplies ample fuel). -/
def bulkLoopF {α : Type} : Nat → List α → Nat → Nat → List (List α)
  | 0, _, _, _ => []
  | f + 1, rows, lower, upper =>
    let cur := (rows.drop lower).take (upper - lower)
    if cur.isEmpty then []
    else
      cur :: bulkLoopF f rows upper
        (if upper + 10 > rows.length then rows.length else upper + 10)

/-- The row groups of one page, in emission order (`loweroffset = 0`,
`upperinsert = 10` initially). -/
def bulkGroups {α : Type} (rows : List α) : List (List α) :=
  bulkLoopF (rows.length + 1) rows 0 10

/-- The `INSERT` statements written for one fetched page. -/
def pageInsertStmts (q : String) (cols : List (String × String)) (page : List PyRow) :
    List String :=
  (bulkGroups page).map (renderInsert q cols)

/-- The paginated query string
`f"{base_query} ORDER BY ctid LIMIT {batch_size} OFFSET {offset}"`. -/
def mkPagedQuery (base : String) (bs offset : Nat) : String :=
  base ++ " ORDER BY ctid LIMIT " ++ natStr bs ++ " OFFSET " ++ natStr offset

/-- The `base_query` of `backup_table`: `SELECT * FROM <qualified>` plus the
optional `WHERE` clause. -/
def baseQuery (q : String) (w : Option String) : String :=
  "SELECT * FROM " ++ q ++ (match w with | some c => " WHERE " ++ c | Option.none => "")

/-- Python truthiness-guarded stop condition
`if max_batches and batch_number > max_batches`: a configured value of `0`
is falsy and never triggers the cap. -/
def capHit (maxB : Option Nat) (bn : Nat) : Bool :=
  match maxB with
  | Option.none => false
  | some m => decide (m ≠ 0) && decide (bn > m)

/-- The cap log line
`f"Reached maximum number of batches ({max_batches}) for {qualified_table_name}"`. -/
def capMessage (m : Nat) (q : String) : String :=
  "Reached maximum number of batches (" ++ natStr m ++ ") for " ++ q

/-- The per-page log line
`f"Processed batch {batch_number-1} for {qualified_table_name}. Total Data: {recordsnum}"`
(logged after the increments, so with the pre-increment batch number and the
updated record count). -/
def batchLog (bn : Nat) (q : String) (rec : Nat) : String :=
  "Processed batch " ++ natStr bn ++ " for " ++ q ++ ". Total Data: " ++ natStr rec

/-- Whether the fetch numbered `bn` (1-based `batch_number`) raises: models
a database error on the paginated `SELECT`, persistent from fetch `failAt`
on (a nonexistent table fails every fetch, `failAt = 1`). -/
def fetchFails (failAt : Option Nat) (bn : Nat) : Bool :=
  match failAt with
  | Option.none => false
  | some k => decide (k ≤ bn)

/-- Outcome of the pagination `while` loop of `backup_table`: the emitted
`INSERT` statements, the nonempty fetched pages, the issued paginated query
strings, the emitted log lines, whether the max-batches cap fired, whether
a fetch raised (propagating out of the loop), and the final `recordsnum`. -/
structure PageLoopOut where
  stmts : List String
  pages : List (List PyRow)
  queries : List String
  logs : List String
  capLogged : Bool
  failed : Bool
  records : Nat

/-- The pagination `while` loop of `backup_table` over an unchanging
ctid-ordered row list (a `LIMIT bs OFFSET off` fetch returns
`(rows.drop off).take bs`), with fault injection via `failAt`.  Per
iteration: the cap check, the paginated fetch (break on empty), the bulk
insert loop, then `offset += batch_size; batch_number += 1;
recordsnum += len(rows)` and the batch log line.  Fuel-based structural
recursion; `runPageLoop` supplies provably sufficient fuel. -/
def pageLoopF (rows : List PyRow) (failAt : Option Nat) (base q : String)
    (cols : List (String × String)) (bs : Nat) (maxB : Option Nat) :
    Nat → Nat → Nat → Nat → PageLoopOut
  | 0, _, _, rec => ⟨[], [], [], [], false, false, rec⟩
  | f + 1, offset, bn, rec =>
    if capHit maxB bn then
      ⟨[], [], [], [capMessage (match maxB with | some m => m | Option.none => 0) q],
        true, false, rec⟩
    else
      let query := mkPagedQuery base bs offset
      if fetchFails failAt bn then ⟨[], [], [query], [], false, true, rec⟩
      else
        let page := (rows.drop offset).take bs
        if page.isEmpty then ⟨[], [], [query], [], false, false, rec⟩
        else
          let rec2 := rec + page.length
          let rest := pageLoopF rows failAt base q cols bs maxB f (offset + bs) (bn + 1) rec2
          ⟨pageInsertStmts q cols page ++ rest.stmts, page :: rest.pages,
            query :: rest.queries, batchLog bn q rec2 :: rest.logs,
            rest.capLogged, rest.failed, rest.records⟩

/-- The pagination loop from its initial state (`offset = 0`,
`batch_number = 1`, `recordsnum = 0`), with fuel `rows.length + 2`. -/
def runPageLoop (rows : List PyRow) (failAt : Option Nat) (base q : String)
    (cols : List (String × String)) (bs : Nat) (maxB : Option Nat) : PageLoopOut :=
  pageLoopF rows failAt base q cols bs maxB (rows.length + 2) 0 1 0

/-- The framing written before the pagination loop: header comment,
replica-mode switch, trigger disable, truncate. -/
def framing (q : String) : String :=
  "-- Backup of " ++ q ++ "\n"
    ++ "SET session_replication_role = " ++ sq ++ "replica" ++ sq ++ ";\n\n"
    ++ "ALTER TABLE " ++ q ++ " DISABLE TRIGGER ALL;\n\n"
    ++ "TRUNCATE TABLE " ++ q ++ ";\n\n"

/-- The finalizing statements written after the loop: trigger enable and
origin-mode switch. -/
def trailer (q : String) : String :=
  "\nALTER TABLE " ++ q ++ " ENABLE TRIGGER ALL;\n"
    ++ "\nSET session_replication_role = " ++ sq ++ "origin" ++ sq ++ ";\n"

/-- Result of one `backup_table` call: the bytes written to the backup file
(also on failure - the `with open` block closes the partial file and the
exception skips the trailer writes), success, the loop observables. -/
structure TableRunOut where
  content : String
  ok : Bool
  loopOut : PageLoopOut

/-- Shallow embedding of `PostgreSQLBackup.backup_table` below the
introspection step: writes the framing, runs the pagination loop, and
writes the trailer unless a fetch raised (in which case the partially
written file is left as is). -/
def backupTableModel (rows : List PyRow) (failAt : Option Nat) (q : String)
    (cols : List (String × String)) (w : Option String) (bs : Nat) (maxB : Option Nat) :
    TableRunOut :=
  let lo := runPageLoop rows failAt (baseQuery q w) q cols bs maxB
  ⟨framing q ++ String.join lo.stmts ++ (if lo.failed then "" else trailer q), !lo.failed, lo⟩

/-! ## Database, introspection, and the export driver -/

/-- A database: maps `(schema, table)` to the table's introspected column
metadata and its ctid-ordered row list, or `none` when the table does not
exist in that schema. -/
abbrev Db : Type := String → String → Option (List (String × String) × List PyRow)

/-- The catalog introspection query of `backup_table` against
`information_schema.columns`: for a missing table or schema it simply
returns zero rows (PostgreSQL semantics) - it does not raise. -/
def introspectCols (db : Db) (sch nm : String) : List (String × String) :=
  match db sch nm with
  | some p => p.1
  | Option.none => []

/-- `_get_fully_qualified_table_name`: the explicit schema when given, else
the configured default schema. -/
def qualifiedName (defaultSchema : String) (schema : Option String) (nm : String) : String :=
  (match schema with | some s => s | Option.none => defaultSchema) ++ "." ++ nm

/-- One `backup_table` call resolved against a database: introspection
yields the catalog columns (empty for a missing table), and the paginated
`SELECT * FROM` a missing table raises on every fetch (`failAt = 1`). -/
def backupTableDb (db : Db) (defaultSchema nm : String) (schema : Option String)
    (w : Option String) (bs : Nat) (maxB : Option Nat) : TableRunOut :=
  let sch := match schema with | some s => s | Option.none => defaultSchema
  let q := qualifiedName defaultSchema schema nm
  match db sch nm with
  | some p => backupTableModel p.2 Option.none q p.1 w bs maxB
  | Option.none => backupTableModel [] (some 1) q [] w bs maxB

/-- One configured table job (`tables` entry of the configuration). -/
structure TableJob where
  name : Option String
  schema : Option String
  whereClause : Option String
  batchSize : Nat
  maxBatches : Option Nat

/-- Python `f"{schema}"` when the schema is the `None` object. -/
def schemaStr (schema : Option String) : String :=
  match schema with
  | some s => s
  | Option.none => "None"

/-- The driver's per-job error log line (the exception text is elided). -/
def jobErrorLog (schema : Option String) (nm : String) : String :=
  "Error backing up table " ++ schemaStr schema ++ "." ++ nm

/-- Observable outcome of the driver loop over the configured table jobs:
the backup files written (in job order, partial files included) and the log
lines (job logs, per-job error lines, and skip warnings).  Start/completion
info lines are not modelled. -/
structure DriverOut where
  files : List String
  logs : List String

/-- Shallow embedding of the table half of
`PostgreSQLBackup.backup_database`: each job runs inside a
`try`/`except Exception` boundary - a job without a name is skipped with a
warning, a failed job is logged and the loop continues with the next job. -/
def backupDatabase (db : Db) (defaultSchema : String) : List TableJob → DriverOut
  | [] => ⟨[], []⟩
  | j :: rest =>
    let r := backupDatabase db defaultSchema rest
    match j.name with
    | Option.none => ⟨r.files, "Skipping table with no name" :: r.logs⟩
    | some nm =>
      let t := backupTableDb db defaultSchema nm j.schema j.whereClause j.batchSize j.maxBatches
      ⟨t.content :: r.files,
        (t.loopOut.logs ++ (if t.ok then [] else [jobErrorLog j.schema nm])) ++ r.logs⟩

/-! ## Theorems: the value formatter -/

/-- Helper: the single-quote doubling fold is the per-character map-join
(each quote is escaped independently; every other character is copied). -/
theorem escape_foldr_eq_join (l : List Char) :
    l.foldr (fun c acc => if c.toNat = 39 then c :: c :: acc else c :: acc) [] =
      (l.map (fun c => if c.toNat = 39 then [c, c] else [c])).flatten := by
  induction l with
  | nil => rfl
  | cons c t ih =>
    simp only [List.foldr_cons, List.map_cons, List.flatten, ih]
    by_cases h : c.toNat = 39 <;> simp [h]

/-- C8: a null value formats as the token `NULL` for every declared type,
never as an empty-string literal. -/
theorem formatValue_null (dt : Option String) : formatValue PyValue.none dt = "NULL" := rfl

/-- C2: the code formats Python booleans as `str(value)` - the literals
`True` and `False` - not as the `TRUE`/`FALSE` tokens the claim states:
`bool` is a subclass of `int`, so the `isinstance(value, (int, float))`
branch fires first and the dedicated boolean branch is unreachable.  (With
a `numeric` declared type the conversion `Decimal("True")` raises and the
`except` returns the same `str(value)`.) -/
theorem formatValue_bool_via_int_branch :
    formatValue (PyValue.bool true) Option.none = "True" ∧
    formatValue (PyValue.bool false) Option.none = "False" ∧
    formatValue (PyValue.bool true) (some "boolean") = "True" ∧
    formatValue (PyValue.bool true) (some "numeric") = "True" ∧
    formatValue (PyValue.bool true) Option.none ≠ "TRUE" := by
  refine ⟨rfl, rfl, ?_, ?_, by decide⟩ <;> decide

set_option maxRecDepth 400000 in
/-- C1: formatting `Decimal("0.10000000000000000001")` under declared type
`numeric(21,20)` silently loses precision through the `float()` conversion:
the code emits `0.10000000000000000555` (the 20-digit fixed-point rendering
of the binary64 value nearest to the input), not the exact
`0.10000000000000000001`. -/
theorem formatValue_numeric_scale_float_precision_loss :
    formatValue (PyValue.decimal (PyDecimal.num false 10000000000000000001 (-20)))
        (some "numeric(21,20)") = "0.10000000000000000555" ∧
    formatValue (PyValue.decimal (PyDecimal.num false 10000000000000000001 (-20)))
        (some "numeric(21,20)") ≠ "0.10000000000000000001" := by
  constructor <;> decide

/-- C7 counterexample: a string value whose declared type contains
`numeric` and which parses as a decimal is not quoted at all - the numeric
branch fires first.  The string `"1"` in a `numeric` column renders as the
bare token `1`, not `'1'`. -/
theorem formatValue_numeric_typed_string_unquoted :
    formatValue (PyValue.str "1") (some "numeric") = "1" ∧
    formatValue (PyValue.str "1") (some "numeric") ≠ sq ++ escapeQuotes "1" ++ sq := by
  constructor <;> decide

/-- C7 (amended): for every string value whose declared type does not
contain `numeric`, the formatter wraps the value in single quotes and
doubles every contained single quote independently, performing no other
transformation (each character maps to itself, a quote to two quotes). -/
theorem formatValue_string_quoting (s : String) (dt : Option String)
    (h : typeHasNumeric dt = false) :
    formatValue (PyValue.str s) dt =
      sq ++ String.mk ((s.data.map (fun c => if c.toNat = 39 then [c, c] else [c])).flatten) ++ sq := by
  simp [formatValue, isDecimalV, isStrV, h, quoteLit, pyStr, escapeQuotes, escape_foldr_eq_join]

/-- C7 witness: `O'Brien` with declared type `text` renders as
`'O''Brien'`. -/
theorem formatValue_string_quoting_witness :
    formatValue (PyValue.str ("O" ++ sq ++ "Brien")) (some "text") =
      sq ++ "O" ++ sq ++ sq ++ "Brien" ++ sq := by
  rw [formatValue_string_quoting ("O" ++ sq ++ "Brien") (some "text") (by decide)]
  decide

/-- C9: a non-null, non-`Decimal` value in a column whose declared type
contains `numeric`, whose text does not parse as a decimal, is returned as
`str(value)` verbatim - no quotes, no quote doubling: the conversion
raises, and the bare `except` returns `str(value)`. -/
theorem formatValue_unparseable_numeric_verbatim (v : PyValue) (dt : Option String)
    (hv : v ≠ PyValue.none) (hd : isDecimalV v = false) (ht : typeHasNumeric dt = true)
    (ha : (pyStr v).data.all (fun c => decide (c.toNat < 128)) = true)
    (hp : decConv v = Option.none) :
    formatValue v dt = pyStr v := by
  cases v with
  | none => exact absurd rfl hv
  | bool b => simp only [formatValue, ht, Bool.or_true, if_pos, hp]
  | int n => simp only [formatValue, ht, Bool.or_true, if_pos, hp]
  | str s => simp only [formatValue, ht, Bool.or_true, if_pos, hp]
  | decimal d => simp [isDecimalV] at hd
  | obj s => simp only [formatValue, ht, Bool.or_true, if_pos, hp]

/-- C9 witness: the string `abc` in a `numeric(5,2)` column renders as the
bare, unquoted text `abc`. -/
theorem formatValue_unparseable_numeric_verbatim_witness :
    formatValue (PyValue.str "abc") (some "numeric(5,2)") = "abc" :=
  formatValue_unparseable_numeric_verbatim (PyValue.str "abc") (some "numeric(5,2)")
    (by decide) (by decide) (by decide) (by decide) (by decide)

/-! ## Fixed-size chunking

Specification-side list splitting, used to characterize both the bulk
insert loop (chunk size 10) and the pagination loop (chunk size
`batch_size`). -/

/-- Splits a list into consecutive chunks of `k` elements (last chunk
possibly shorter); fuel-based, `chunksOf` supplies ample fuel. -/
def chunksOfF {α : Type} : Nat → Nat → List α → List (List α)
  | 0, _, _ => []
  | _, _, [] => []
  | f + 1, k, l => l.take k :: chunksOfF f k (l.drop k)

/-- Splits a list into consecutive chunks of `k` elements. -/
def chunksOf {α : Type} (k : Nat) (l : List α) : List (List α) :=
  chunksOfF (l.length + 1) k l

theorem chunksOfF_fuel_irrel {α : Type} (k : Nat) (hk : 0 < k) :
    ∀ (f : Nat) (g : Nat) (l : List α), l.length < f → l.length < g →
      chunksOfF f k l = chunksOfF g k l := by
  intro f
  induction f with
  | zero => intro g l hf _; exact absurd hf (Nat.not_lt_zero _)
  | succ f ih =>
    intro g l hf hg
    match g, l with
    | g + 1, [] => rfl
    | g + 1, a :: t =>
      simp only [List.length_cons] at hf hg
      simp only [chunksOfF]
      refine congrArg _ (ih g ((a :: t).drop k) ?_ ?_) <;>
        simp only [List.length_drop, List.length_cons] <;> omega

theorem chunksOf_nil {α : Type} (k : Nat) : chunksOf k ([] : List α) = [] := rfl

theorem chunksOf_cons {α : Type} (k : Nat) (hk : 0 < k) (l : List α) (hl : l ≠ []) :
    chunksOf k l = l.take k :: chunksOf k (l.drop k) := by
  match l with
  | a :: t =>
    show chunksOfF (t.length + 1 + 1) k (a :: t) = _
    simp only [chunksOfF]
    refine congrArg _ (chunksOfF_fuel_irrel k hk _ _ _ ?_ ?_) <;>
      simp only [List.length_drop, List.length_cons] <;> omega

theorem chunksOf_eq_nil_iff {α : Type} (k : Nat) (hk : 0 < k) (l : List α) :
    chunksOf k l = [] ↔ l = [] := by
  constructor
  · intro h
    by_contra hl
    rw [chunksOf_cons k hk l hl] at h
    exact List.cons_ne_nil _ _ h
  · intro h; subst h; rfl

theorem chunksOf_length {α : Type} (k : Nat) (hk : 0 < k) :
    ∀ (n : Nat) (l : List α), l.length ≤ n →
      (chunksOf k l).length = (l.length + k - 1) / k := by
  intro n
  induction n with
  | zero =>
    intro l hl
    have h0 : l = [] := List.eq_nil_of_length_eq_zero (Nat.le_zero.mp hl)
    subst h0
    simp only [chunksOf_nil, List.length_nil, Nat.zero_add]
    rw [Nat.div_eq_of_lt (by omega)]
  | succ n ih =>
    intro l hl
    by_cases hl0 : l = []
    · subst hl0
      simp only [chunksOf_nil, List.length_nil, Nat.zero_add]
      rw [Nat.div_eq_of_lt (by omega)]
    · have hlen : 0 < l.length := List.length_pos.mpr hl0
      rw [chunksOf_cons k hk l hl0, List.length_cons,
        ih (l.drop k) (by simp only [List.length_drop]; omega), List.length_drop]
      by_cases hlk : l.length ≤ k
      · rw [show l.length - k + k - 1 = k - 1 by omega, Nat.div_eq_of_lt (by omega),
          show l.length + k - 1 = (l.length - 1) + k by omega, Nat.add_div_right _ hk,
          Nat.div_eq_of_lt (by omega)]
      · obtain ⟨m, hm⟩ : ∃ m, l.length = m + k := ⟨l.length - k, by omega⟩
        rw [hm, Nat.add_sub_cancel,
          show m + k + k - 1 = (m + k - 1) + k by omega, Nat.add_div_right _ hk]

theorem chunksOf_flatten {α : Type} (k : Nat) (hk : 0 < k) :
    ∀ (n : Nat) (l : List α), l.length ≤ n → (chunksOf k l).flatten = l := by
  intro n
  induction n with
  | zero =>
    intro l hl
    have h0 : l = [] := List.eq_nil_of_length_eq_zero (Nat.le_zero.mp hl)
    subst h0; rfl
  | succ n ih =>
    intro l hl
    by_cases hl0 : l = []
    · subst hl0; rfl
    · have hlen : 0 < l.length := List.length_pos.mpr hl0
      rw [chunksOf_cons k hk l hl0, List.flatten_cons,
        ih (l.drop k) (by simp only [List.length_drop]; omega), List.take_append_drop]

theorem chunksOf_ne_nil {α : Type} (k : Nat) (hk : 0 < k) :
    ∀ (n : Nat) (l : List α), l.length ≤ n → ∀ c ∈ chunksOf k l, c ≠ [] := by
  intro n
  induction n with
  | zero =>
    intro l hl c hc
    have h0 : l = [] := List.eq_nil_of_length_eq_zero (Nat.le_zero.mp hl)
    subst h0; simp [chunksOf_nil] at hc
  | succ n ih =>
    intro l hl c hc
    by_cases hl0 : l = []
    · subst hl0; simp [chunksOf_nil] at hc
    · have hlen : 0 < l.length := List.length_pos.mpr hl0
      rw [chunksOf_cons k hk l hl0] at hc
      rcases List.mem_cons.mp hc with h | h
      · subst h
        simp only [ne_eq, List.take_eq_nil_iff]
        push_neg
        exact ⟨by omega, hl0⟩
      · exact ih (l.drop k) (by simp only [List.length_drop]; omega) c h

theorem chunksOf_dropLast_length {α : Type} (k : Nat) (hk : 0 < k) :
    ∀ (n : Nat) (l : List α), l.length ≤ n →
      ∀ c ∈ (chunksOf k l).dropLast, c.length = k := by
  intro n
  induction n with
  | zero =>
    intro l hl c hc
    have h0 : l = [] := List.eq_nil_of_length_eq_zero (Nat.le_zero.mp hl)
    subst h0; simp [chunksOf_nil] at hc
  | succ n ih =>
    intro l hl c hc
    by_cases hl0 : l = []
    · subst hl0; simp [chunksOf_nil] at hc
    · have hlen : 0 < l.length := List.length_pos.mpr hl0
      rw [chunksOf_cons k hk l hl0] at hc
      by_cases hrest : chunksOf k (l.drop k) = []
      · rw [hrest] at hc; simp at hc
      · rw [List.dropLast_cons_of_ne_nil hrest] at hc
        rcases List.mem_cons.mp hc with h | h
        · subst h
          have hdk : l.drop k ≠ [] := fun he => hrest (by rw [he, chunksOf_nil])
          have hkl : k < l.length := by
            by_contra hge
            exact hdk (List.drop_eq_nil_of_le (by omega))
          simp only [List.length_take]
          omega
        · exact ih (l.drop k) (by simp only [List.length_drop]; omega) c h

/-- Helper: `getLastD` of a nonempty list ignores its default. -/
theorem getLastD_ne_nil_default {α : Type} (t : List α) (ht : t ≠ []) (x y : α) :
    t.getLastD x = t.getLastD y := by
  match t with
  | a :: t2 => simp only [List.getLastD_cons]

theorem chunksOf_getLastD_length {α : Type} (k : Nat) (hk : 0 < k) :
    ∀ (n : Nat) (l : List α), l.length ≤ n → l ≠ [] →
      ((chunksOf k l).getLastD []).length =
        (if l.length % k = 0 then k else l.length % k) := by
  intro n
  induction n with
  | zero =>
    intro l hl hl0
    exact absurd (List.eq_nil_of_length_eq_zero (Nat.le_zero.mp hl)) hl0
  | succ n ih =>
    intro l hl hl0
    have hlen : 0 < l.length := List.length_pos.mpr hl0
    rw [chunksOf_cons k hk l hl0]
    by_cases hlk : l.length ≤ k
    · have hdrop : l.drop k = [] := List.drop_eq_nil_of_le hlk
      rw [hdrop, chunksOf_nil]
      simp only [List.getLastD_cons, List.getLastD_nil]
      rw [List.take_of_length_le hlk]
      by_cases he : l.length = k
      · rw [he]; simp [Nat.mod_self]
      · rw [if_neg (by rw [Nat.mod_eq_of_lt (by omega)]; omega), Nat.mod_eq_of_lt (by omega)]
    · have hdk : l.drop k ≠ [] := by
        intro he
        have h2 := List.drop_eq_nil_iff.mp he
        omega
      have hrest : chunksOf k (l.drop k) ≠ [] := by
        rw [ne_eq, chunksOf_eq_nil_iff k hk]
        exact hdk
      rw [List.getLastD_cons, getLastD_ne_nil_default _ hrest _ [],
        ih (l.drop k) (by simp only [List.length_drop]; omega) hdk, List.length_drop,
        ← Nat.mod_eq_sub_mod (show l.length ≥ k by omega)]

/-! ## The bulk-insert loop is fixed-size chunking -/

theorem bulkLoopF_eq_chunksOf {α : Type} :
    ∀ (f : Nat) (rows : List α) (lower u : Nat),
      rows.length - lower < f →
      (u = lower + 10 ∨ (u = rows.length ∧ rows.length ≤ lower + 10)) →
      bulkLoopF f rows lower u = chunksOf 10 (rows.drop lower) := by
  intro f
  induction f with
  | zero => intro rows lower u hf _; omega
  | succ f ih =>
    intro rows lower u hf hu
    simp only [bulkLoopF]
    by_cases htail : rows.drop lower = []
    · rw [htail]
      simp [chunksOf_nil]
    · have hlow : lower < rows.length := by
        by_contra h
        exact htail (List.drop_eq_nil_of_le (by omega))
      have htlen : (rows.drop lower).length = rows.length - lower := List.length_drop ..
      have hslice : (rows.drop lower).take (u - lower) = (rows.drop lower).take 10 := by
        rcases hu with h | ⟨h1, h2⟩
        · rw [h, Nat.add_sub_cancel_left]
        · rw [h1]
          rw [List.take_of_length_le (by omega), List.take_of_length_le (by omega)]
      rw [hslice]
      have hne : (rows.drop lower).take 10 ≠ [] := by
        simp only [ne_eq, List.take_eq_nil_iff]
        push_neg
        exact ⟨by omega, htail⟩
      rw [if_neg (by simpa [List.isEmpty_iff] using hne)]
      rw [chunksOf_cons 10 (by omega) _ htail]
      refine congrArg _ ?_
      have hrec := ih rows u (if u + 10 > rows.length then rows.length else u + 10)
      rcases hu with h | ⟨h1, h2⟩
      · subst h
        rw [hrec (by omega) (by split <;> omega)]
        rw [List.drop_drop]
      · subst h1
        rw [hrec (by omega) (by split <;> omega)]
        rw [List.drop_length, List.drop_eq_nil_of_le (by omega), chunksOf_nil]

/-- The bulk-insert loop of the source splits each fetched page into
consecutive groups of 10 rows. -/
theorem bulkGroups_eq_chunksOf {α : Type} (rows : List α) :
    bulkGroups rows = chunksOf 10 rows := by
  have h := bulkLoopF_eq_chunksOf (rows.length + 1) rows 0 10 (by omega) (Or.inl rfl)
  rwa [List.drop_zero] at h

theorem bulkLoopF_mem_ne_nil {α : Type} :
    ∀ (f : Nat) (rows : List α) (lower u : Nat) (g : List α),
      g ∈ bulkLoopF f rows lower u → g ≠ [] := by
  intro f
  induction f with
  | zero => intro rows lower u g hg; simp [bulkLoopF] at hg
  | succ f ih =>
    intro rows lower u g hg
    simp only [bulkLoopF] at hg
    by_cases hc : ((rows.drop lower).take (u - lower)).isEmpty
    · rw [if_pos hc] at hg
      simp at hg
    · rw [if_neg hc] at hg
      rcases List.mem_cons.mp hg with h | h
      · subst h
        exact fun he => hc (by rw [he]; rfl)
      · exact ih _ _ _ g h

set_option maxRecDepth 10000 in
/-- C4: for every nonempty fetched page of `N` rows, the bulk-insert loop
emits exactly `ceil(N/10)` INSERT statements whose row groups are
consecutive slices of the page in original order (their concatenation is
the page itself), each of exactly 10 rows except a final partial group of
`N mod 10` rows when 10 does not divide `N`; in particular a page of 23
rows yields 3 statements with group sizes 10, 10, 3. -/
theorem bulkInsert_grouping :
    (∀ (page : List PyRow) (q : String) (cols : List (String × String)), page ≠ [] →
      (pageInsertStmts q cols page).length = (page.length + 9) / 10 ∧
      (bulkGroups page).flatten = page ∧
      (∀ g ∈ (bulkGroups page).dropLast, g.length = 10) ∧
      ((bulkGroups page).getLastD []).length =
        (if page.length % 10 = 0 then 10 else page.length % 10)) ∧
    (bulkGroups (List.range 23)).map List.length = [10, 10, 3] := by
  constructor
  · intro page q cols hp
    have he := bulkGroups_eq_chunksOf page
    refine ⟨?_, ?_, ?_, ?_⟩
    · show ((bulkGroups page).map (renderInsert q cols)).length = _
      rw [List.length_map, he, chunksOf_length 10 (by omega) page.length page le_rfl]
      omega
    · rw [he]
      exact chunksOf_flatten 10 (by omega) page.length page le_rfl
    · rw [he]
      exact chunksOf_dropLast_length 10 (by omega) page.length page le_rfl
    · rw [he]
      exact chunksOf_getLastD_length 10 (by omega) page.length page le_rfl hp
  · decide

/-- C4 witness: a concrete 3-row page yields one INSERT statement whose
single group is the page itself. -/
theorem bulkInsert_grouping_witness :
    (pageInsertStmts "public.t" [("id", "integer")]
        [[PyValue.int 1], [PyValue.int 2], [PyValue.int 3]]).length = 1 ∧
    (bulkGroups [[PyValue.int 1], [PyValue.int 2], [PyValue.int 3]]).flatten =
      [[PyValue.int 1], [PyValue.int 2], [PyValue.int 3]] :=
  ⟨(bulkInsert_grouping.1 [[PyValue.int 1], [PyValue.int 2], [PyValue.int 3]]
      "public.t" [("id", "integer")] (by decide)).1,
    (bulkInsert_grouping.1 [[PyValue.int 1], [PyValue.int 2], [PyValue.int 3]]
      "public.t" [("id", "integer")] (by decide)).2.1⟩

/-! ## Pagination loop lemmas -/

theorem pageLoopF_no_fail (rows : List PyRow) (base q : String)
    (cols : List (String × String)) (bs : Nat) (maxB : Option Nat) :
    ∀ (f offset bn rec : Nat),
      (pageLoopF rows Option.none base q cols bs maxB f offset bn rec).failed = false := by
  intro f
  induction f with
  | zero => intro offset bn rec; rfl
  | succ f ih =>
    intro offset bn rec
    by_cases hcap : capHit maxB bn = true
    · simp [pageLoopF, hcap]
    · by_cases hpage : ((rows.drop offset).take bs).isEmpty = true
      · simp [pageLoopF, hcap, hpage, fetchFails]
      · simp [pageLoopF, hcap, hpage, fetchFails, ih]

theorem pageLoopF_stmts_shape (rows : List PyRow) (failAt : Option Nat) (base q : String)
    (cols : List (String × String)) (bs : Nat) (maxB : Option Nat) :
    ∀ (f offset bn rec : Nat) (s : String),
      s ∈ (pageLoopF rows failAt base q cols bs maxB f offset bn rec).stmts →
      ∃ g : List PyRow, g ≠ [] ∧ s = renderInsert q cols g := by
  intro f
  induction f with
  | zero => intro offset bn rec s hs; simp [pageLoopF] at hs
  | succ f ih =>
    intro offset bn rec s hs
    by_cases hcap : capHit maxB bn = true
    · simp [pageLoopF, hcap] at hs
    · by_cases hfail : fetchFails failAt bn = true
      · simp [pageLoopF, hcap, hfail] at hs
      · by_cases hpage : ((rows.drop offset).take bs).isEmpty = true
        · simp [pageLoopF, hcap, hfail, hpage] at hs
        · simp only [pageLoopF, hcap, hfail, hpage, Bool.false_eq_true, if_neg, if_false,
            pageInsertStmts, List.mem_append] at hs
          rcases hs with hs | hs
          · obtain ⟨g, hg, rfl⟩ := List.mem_map.mp hs
            exact ⟨g, bulkLoopF_mem_ne_nil _ _ _ _ g hg, rfl⟩
          · exact ih _ _ _ s hs

theorem pageLoopF_noCap (rows : List PyRow) (base q : String)
    (cols : List (String × String)) (bs : Nat) (hbs : 0 < bs) :
    ∀ (f offset bn rec : Nat), rows.length - offset < f →
      (pageLoopF rows Option.none base q cols bs Option.none f offset bn rec).pages =
          chunksOf bs (rows.drop offset) ∧
      (pageLoopF rows Option.none base q cols bs Option.none f offset bn rec).stmts =
          ((chunksOf bs (rows.drop offset)).map (pageInsertStmts q cols)).flatten ∧
      (pageLoopF rows Option.none base q cols bs Option.none f offset bn rec).queries =
          (List.range ((chunksOf bs (rows.drop offset)).length + 1)).map
            (fun i => mkPagedQuery base bs (offset + i * bs)) ∧
      (pageLoopF rows Option.none base q cols bs Option.none f offset bn rec).capLogged
          = false := by
  intro f
  induction f with
  | zero => intro offset bn rec hf; omega
  | succ f ih =>
    intro offset bn rec hf
    by_cases htail : rows.drop offset = []
    · have hpage : ((rows.drop offset).take bs).isEmpty = true := by
        rw [htail]; simp
      rw [htail, chunksOf_nil]
      refine ⟨?_, ?_, ?_, ?_⟩ <;>
        simp [pageLoopF, capHit, fetchFails, hpage, List.range_succ, mkPagedQuery]
    · have hlow : offset < rows.length := by
        by_contra h
        exact htail (List.drop_eq_nil_of_le (by omega))
      have hne : (rows.drop offset).take bs ≠ [] := by
        simp only [ne_eq, List.take_eq_nil_iff]
        push_neg
        exact ⟨by omega, htail⟩
      have hpage : (((rows.drop offset).take bs).isEmpty = true) = False := by
        simp [List.isEmpty_iff, hne]
      have ihh := ih (offset + bs) (bn + 1) (rec + ((rows.drop offset).take bs).length)
        (by omega)
      have hdd : (rows.drop offset).drop bs = rows.drop (offset + bs) := by
        rw [List.drop_drop]
      have hch : chunksOf bs (rows.drop offset) =
          (rows.drop offset).take bs :: chunksOf bs (rows.drop (offset + bs)) := by
        rw [chunksOf_cons bs hbs _ htail, hdd]
      refine ⟨?_, ?_, ?_, ?_⟩
      · simp only [pageLoopF, capHit, fetchFails, hpage, Bool.false_eq_true, if_false,
          ihh.1, hch]
      · simp only [pageLoopF, capHit, fetchFails, hpage, Bool.false_eq_true, if_false,
          ihh.2.1, hch, List.map_cons, List.flatten_cons]
      · have hr : List.map (fun i => mkPagedQuery base bs (offset + i * bs))
            (List.range ((chunksOf bs (rows.drop (offset + bs))).length + 1 + 1)) =
            mkPagedQuery base bs offset ::
              List.map (fun i => mkPagedQuery base bs (offset + bs + i * bs))
                (List.range ((chunksOf bs (rows.drop (offset + bs))).length + 1)) := by
          rw [List.range_succ_eq_map, List.map_cons, List.map_map]
          congr 1
          · simp
          · refine List.map_congr_left ?_
            intro i _
            simp only [Function.comp_apply]
            congr 1
            simp only [Nat.succ_eq_add_one]
            ring
        simp only [pageLoopF, capHit, fetchFails, hpage, Bool.false_eq_true, if_false,
          ihh.2.2.1, hch, List.length_cons, hr]
      · simp only [pageLoopF, capHit, fetchFails, hpage, Bool.false_eq_true, if_false,
          ihh.2.2.2]

theorem capHit_one (maxB : Option Nat) : capHit maxB 1 = false := by
  cases maxB with
  | none => rfl
  | some m =>
    simp only [capHit, Bool.and_eq_false_iff]
    by_cases h : m = 0
    · exact Or.inl (by simp [h])
    · exact Or.inr (by simp; omega)

theorem pageLoopF_cap (rows : List PyRow) (base q : String)
    (cols : List (String × String)) (bs : Nat) (hbs : 0 < bs) (m : Nat) (hm : 0 < m) :
    ∀ (d f offset bn rec : Nat),
      bn + d = m + 1 →
      (∀ i, i < d → offset + i * bs < rows.length) →
      d + 1 ≤ f →
      (pageLoopF rows Option.none base q cols bs (some m) f offset bn rec).pages.length = d ∧
      (pageLoopF rows Option.none base q cols bs (some m) f offset bn rec).queries =
          (List.range d).map (fun i => mkPagedQuery base bs (offset + i * bs)) ∧
      (pageLoopF rows Option.none base q cols bs (some m) f offset bn rec).capLogged = true ∧
      (pageLoopF rows Option.none base q cols bs (some m) f offset bn rec).failed = false ∧
      capMessage m q ∈
        (pageLoopF rows Option.none base q cols bs (some m) f offset bn rec).logs := by
  intro d
  induction d with
  | zero =>
    intro f offset bn rec hbn hdata hf
    match f with
    | f + 1 =>
      have hcap : capHit (some m) bn = true := by
        simp only [capHit, Bool.and_eq_true, decide_eq_true_eq]
        omega
      simp [pageLoopF, hcap]
  | succ d ih =>
    intro f offset bn rec hbn hdata hf
    match f with
    | f + 1 =>
      have hcap : (capHit (some m) bn = true) = False := by
        simp only [capHit, Bool.and_eq_true, decide_eq_true_eq, eq_iff_iff, iff_false]
        omega
      have hlow : offset < rows.length := by
        have h0 := hdata 0 (by omega)
        simpa using h0
      have hne : (rows.drop offset).take bs ≠ [] := by
        simp only [ne_eq, List.take_eq_nil_iff]
        push_neg
        refine ⟨by omega, ?_⟩
        intro he
        have h2 := List.drop_eq_nil_iff.mp he
        omega
      have hpage : (((rows.drop offset).take bs).isEmpty = true) = False := by
        simp [List.isEmpty_iff, hne]
      have ihh := ih f (offset + bs) (bn + 1) (rec + ((rows.drop offset).take bs).length)
        (by omega)
        (by
          intro i hi
          have h2 := hdata (i + 1) (by omega)
          have h3 : offset + (i + 1) * bs = offset + bs + i * bs := by ring
          rw [h3] at h2
          exact h2)
        (by omega)
      refine ⟨?_, ?_, ?_, ?_, ?_⟩
      · simp only [pageLoopF, hcap, fetchFails, Bool.false_eq_true, if_false, hpage,
          List.length_cons, ihh.1]
      · have hr : List.map (fun i => mkPagedQuery base bs (offset + i * bs))
            (List.range (d + 1)) =
            mkPagedQuery base bs offset ::
              List.map (fun i => mkPagedQuery base bs (offset + bs + i * bs))
                (List.range d) := by
          rw [List.range_succ_eq_map, List.map_cons, List.map_map]
          congr 1
          · simp
          · refine List.map_congr_left ?_
            intro i _
            simp only [Function.comp_apply]
            congr 1
            simp only [Nat.succ_eq_add_one]
            ring
        simp only [pageLoopF, hcap, fetchFails, Bool.false_eq_true, if_false, hpage,
          ihh.2.1, hr]
      · simp only [pageLoopF, hcap, fetchFails, Bool.false_eq_true, if_false, hpage,
          ihh.2.2.1]
      · simp only [pageLoopF, hcap, fetchFails, Bool.false_eq_true, if_false, hpage,
          ihh.2.2.2.1]
      · simp only [pageLoopF, hcap, fetchFails, Bool.false_eq_true, if_false, hpage]
        exact List.mem_cons_of_mem _ ihh.2.2.2.2

/-! ## Theorems: output grammar, pagination, failure handling -/

/-- C5: every completed table export writes, in order: the header comment,
the replica-mode switch, the trigger disable, the truncate, zero or more
bulk INSERT statements each carrying the same explicit column list, then
the trigger enable and the origin-mode switch. -/
theorem backupTable_output_grammar (rows : List PyRow) (q : String)
    (cols : List (String × String)) (w : Option String) (bs : Nat) (maxB : Option Nat) :
    ∃ inserts : List String,
      (∀ s ∈ inserts, ∃ vals : String,
          s = "INSERT INTO " ++ q ++ " (" ++ String.intercalate ", " (cols.map Prod.fst)
            ++ ") VALUES " ++ vals ++ ";\n") ∧
      (backupTableModel rows Option.none q cols w bs maxB).content =
        framing q ++ String.join inserts ++ trailer q := by
  refine ⟨(runPageLoop rows Option.none (baseQuery q w) q cols bs maxB).stmts, ?_, ?_⟩
  · intro s hs
    obtain ⟨g, _, rfl⟩ :=
      pageLoopF_stmts_shape rows Option.none (baseQuery q w) q cols bs maxB _ _ _ _ s hs
    exact ⟨String.intercalate ", " (g.map (renderRow cols)), rfl⟩
  · have hnf : (runPageLoop rows Option.none (baseQuery q w) q cols bs maxB).failed
        = false := pageLoopF_no_fail rows (baseQuery q w) q cols bs maxB _ _ _ _
    show framing q ++ String.join _
        ++ (if (runPageLoop rows Option.none (baseQuery q w) q cols bs maxB).failed
            then "" else trailer q) = _
    rw [hnf]
    simp

/-- C3 counterexample: a configured `max_batches` of `0` (which satisfies
`M < ceil(R/B)` for a one-row table) does not stop the export after 0
batches: `0` is falsy in the Python guard `if max_batches and ...`, so the
cap never fires and one batch is fetched without any cap log. -/
theorem backupTable_maxBatches_zero_not_capped :
    (backupTableModel [[PyValue.int 1]] Option.none "public.t" [("id", "integer")]
        Option.none 1 (some 0)).loopOut.pages.length = 1 ∧
    (backupTableModel [[PyValue.int 1]] Option.none "public.t" [("id", "integer")]
        Option.none 1 (some 0)).loopOut.capLogged = false := by
  constructor <;> decide

/-- C3 (amended): over an unchanging table with `R` rows and batch size
`B > 0`, the pagination loop issues sequential `ORDER BY ctid` fetches with
offsets `0, B, 2B, ...`; without a cap it processes exactly `ceil(R/B)`
nonempty pages (the pages are the consecutive `B`-chunks of the rows, the
last holding `R mod B` rows - or `B` when `B` divides `R`), then stops on
one final empty fetch with no cap log; with a configured cap
`1 ≤ M < ceil(R/B)` exactly `M` pages are fetched and the cap message is
logged (a configured `max_batches = 0` is falsy and means no cap). -/
theorem backupTable_pagination (rows : List PyRow) (q : String)
    (cols : List (String × String)) (w : Option String) (bs : Nat) (hbs : 0 < bs) :
    ((backupTableModel rows Option.none q cols w bs Option.none).loopOut.pages =
        chunksOf bs rows ∧
      (backupTableModel rows Option.none q cols w bs Option.none).loopOut.pages.length =
        (rows.length + bs - 1) / bs ∧
      (∀ p ∈ (backupTableModel rows Option.none q cols w bs Option.none).loopOut.pages,
        p ≠ []) ∧
      (rows ≠ [] →
        (((backupTableModel rows Option.none q cols w bs Option.none).loopOut.pages.getLastD
            []).length = if rows.length % bs = 0 then bs else rows.length % bs)) ∧
      (backupTableModel rows Option.none q cols w bs Option.none).loopOut.queries =
        (List.range ((rows.length + bs - 1) / bs + 1)).map
          (fun i => mkPagedQuery (baseQuery q w) bs (i * bs)) ∧
      (backupTableModel rows Option.none q cols w bs Option.none).loopOut.capLogged
        = false) ∧
    (∀ m : Nat, 0 < m → m < (rows.length + bs - 1) / bs →
      (backupTableModel rows Option.none q cols w bs (some m)).loopOut.pages.length = m ∧
      (backupTableModel rows Option.none q cols w bs (some m)).loopOut.queries =
        (List.range m).map (fun i => mkPagedQuery (baseQuery q w) bs (i * bs)) ∧
      (backupTableModel rows Option.none q cols w bs (some m)).loopOut.capLogged = true ∧
      capMessage m q ∈
        (backupTableModel rows Option.none q cols w bs (some m)).loopOut.logs) := by
  constructor
  · have hL : (backupTableModel rows Option.none q cols w bs Option.none).loopOut =
        pageLoopF rows Option.none (baseQuery q w) q cols bs Option.none
          (rows.length + 2) 0 1 0 := rfl
    have h := pageLoopF_noCap rows (baseQuery q w) q cols bs hbs
      (rows.length + 2) 0 1 0 (by omega)
    rw [List.drop_zero] at h
    have hlen : (chunksOf bs rows).length = (rows.length + bs - 1) / bs :=
      chunksOf_length bs hbs rows.length rows le_rfl
    refine ⟨?_, ?_, ?_, ?_, ?_, ?_⟩
    · rw [hL, h.1]
    · rw [hL, h.1, hlen]
    · rw [hL, h.1]
      exact chunksOf_ne_nil bs hbs rows.length rows le_rfl
    · intro hrows
      rw [hL, h.1]
      exact chunksOf_getLastD_length bs hbs rows.length rows le_rfl hrows
    · rw [hL, h.2.2.1, hlen]
      refine List.map_congr_left ?_
      intro i _
      show mkPagedQuery (baseQuery q w) bs (0 + i * bs) = _
      rw [Nat.zero_add]
    · rw [hL, h.2.2.2]
  · intro m hm hmlt
    have hL : (backupTableModel rows Option.none q cols w bs (some m)).loopOut =
        pageLoopF rows Option.none (baseQuery q w) q cols bs (some m)
          (rows.length + 2) 0 1 0 := rfl
    have hmR : m * bs < rows.length := by
      have h1 : m + 1 ≤ (rows.length + bs - 1) / bs := hmlt
      have h2 : (m + 1) * bs ≤ rows.length + bs - 1 := (Nat.le_div_iff_mul_le hbs).mp h1
      have h3 : m * bs + bs ≤ rows.length + bs - 1 := by
        rw [Nat.succ_mul] at h2
        exact h2
      omega
    have hmle : m ≤ m * bs := Nat.le_mul_of_pos_right m hbs
    have h := pageLoopF_cap rows (baseQuery q w) q cols bs hbs m hm m
      (rows.length + 2) 0 1 0 (by omega)
      (by
        intro i hi
        have h4 : i * bs < m * bs := Nat.mul_lt_mul_of_lt_of_le hi le_rfl hbs
        omega)
      (by omega)
    refine ⟨?_, ?_, ?_, ?_⟩
    · rw [hL, h.1]
    · rw [hL, h.2.1]
      refine List.map_congr_left ?_
      intro i _
      show mkPagedQuery (baseQuery q w) bs (0 + i * bs) = _
      rw [Nat.zero_add]
    · rw [hL, h.2.2.1]
    · rw [hL]
      exact h.2.2.2.2

/-- C3 witness: three one-column rows with batch size 2 yield two pages
without a cap, and exactly one page with a cap-reached log under
`max_batches = 1`. -/
theorem backupTable_pagination_witness :
    (backupTableModel [[PyValue.int 1], [PyValue.int 2], [PyValue.int 3]] Option.none
        "public.t" [("id", "integer")] Option.none 2 Option.none).loopOut.pages.length = 2 ∧
    (backupTableModel [[PyValue.int 1], [PyValue.int 2], [PyValue.int 3]] Option.none
        "public.t" [("id", "integer")] Option.none 2 (some 1)).loopOut.pages.length = 1 ∧
    (backupTableModel [[PyValue.int 1], [PyValue.int 2], [PyValue.int 3]] Option.none
        "public.t" [("id", "integer")] Option.none 2 (some 1)).loopOut.capLogged = true :=
  ⟨(backupTable_pagination [[PyValue.int 1], [PyValue.int 2], [PyValue.int 3]]
      "public.t" [("id", "integer")] Option.none 2 (by decide)).1.2.1,
    ((backupTable_pagination [[PyValue.int 1], [PyValue.int 2], [PyValue.int 3]]
      "public.t" [("id", "integer")] Option.none 2 (by decide)).2 1 (by decide) (by decide)).1,
    ((backupTable_pagination [[PyValue.int 1], [PyValue.int 2], [PyValue.int 3]]
      "public.t" [("id", "integer")] Option.none 2 (by decide)).2 1 (by decide)
      (by decide)).2.2.1⟩

/-- C10: when a paginated fetch raises after the framing has been written,
the partially written file consists of the framing followed by the INSERT
statements emitted so far - the finalizing trigger-enable and origin-mode
statements are never written, so a replay of the partial file leaves
replica mode set and the table's triggers disabled. -/
theorem failed_export_no_finalizer (rows : List PyRow) (failAt : Option Nat) (q : String)
    (cols : List (String × String)) (w : Option String) (bs : Nat) (maxB : Option Nat)
    (h : (backupTableModel rows failAt q cols w bs maxB).ok = false) :
    ∃ inserts : List String,
      (∀ s ∈ inserts, ∃ g : List PyRow, g ≠ [] ∧ s = renderInsert q cols g) ∧
      (backupTableModel rows failAt q cols w bs maxB).content =
        framing q ++ String.join inserts := by
  refine ⟨(runPageLoop rows failAt (baseQuery q w) q cols bs maxB).stmts, ?_, ?_⟩
  · intro s hs
    exact pageLoopF_stmts_shape rows failAt (baseQuery q w) q cols bs maxB _ _ _ _ s hs
  · have hfail : (runPageLoop rows failAt (baseQuery q w) q cols bs maxB).failed = true := by
      have h2 : (!(runPageLoop rows failAt (baseQuery q w) q cols bs maxB).failed)
          = false := h
      cases hb : (runPageLoop rows failAt (baseQuery q w) q cols bs maxB).failed
      · rw [hb] at h2
        exact absurd h2 (by decide)
      · rfl
    show framing q ++ String.join _
        ++ (if (runPageLoop rows failAt (baseQuery q w) q cols bs maxB).failed
            then "" else trailer q) = _
    rw [hfail]
    simp

/-- C10 witness: with two rows, batch size 1 and the second fetch raising,
the file holds the framing plus the single INSERT of the first page and no
finalizer. -/
theorem failed_export_no_finalizer_witness :
    ∃ inserts : List String,
      (∀ s ∈ inserts, ∃ g : List PyRow, g ≠ [] ∧
          s = renderInsert "public.t" [("id", "integer")] g) ∧
      (backupTableModel [[PyValue.int 1], [PyValue.int 2]] (some 2) "public.t"
          [("id", "integer")] Option.none 1 Option.none).content =
        framing "public.t" ++ String.join inserts :=
  failed_export_no_finalizer [[PyValue.int 1], [PyValue.int 2]] (some 2) "public.t"
    [("id", "integer")] Option.none 1 Option.none (by decide)

/-! ## Missing tables and driver isolation -/

/-- The driver processes a concatenation of job lists independently: its
files and logs are the concatenations of the per-list outputs (no job
aborts the jobs after it). -/
theorem backupDatabase_append (db : Db) (ds : String) (xs ys : List TableJob) :
    (backupDatabase db ds (xs ++ ys)).files =
        (backupDatabase db ds xs).files ++ (backupDatabase db ds ys).files ∧
    (backupDatabase db ds (xs ++ ys)).logs =
        (backupDatabase db ds xs).logs ++ (backupDatabase db ds ys).logs := by
  induction xs with
  | nil => exact ⟨rfl, rfl⟩
  | cons j t ih =>
    cases hj : j.name with
    | none =>
      refine ⟨?_, ?_⟩ <;>
        simp [backupDatabase, hj, ih.1, ih.2]
    | some nm =>
      refine ⟨?_, ?_⟩ <;>
        simp [backupDatabase, hj, ih.1, ih.2]

/-- A `backup_table` run against a missing table: the loop's first fetch
raises, leaving only the framing in the file, no trailer, no loop logs, a
failed outcome. -/
theorem backupTableModel_missing (q : String) (w : Option String) (bs : Nat)
    (maxB : Option Nat) :
    (backupTableModel [] (some 1) q [] w bs maxB).ok = false ∧
    (backupTableModel [] (some 1) q [] w bs maxB).content = framing q ∧
    (backupTableModel [] (some 1) q [] w bs maxB).loopOut.logs = [] := by
  have h1 : runPageLoop [] (some 1) (baseQuery q w) q [] bs maxB =
      ⟨[], [], [mkPagedQuery (baseQuery q w) bs 0], [], false, true, 0⟩ := by
    show pageLoopF [] (some 1) (baseQuery q w) q [] bs maxB 2 0 1 0 = _
    simp [pageLoopF, capHit_one, fetchFails]
  refine ⟨?_, ?_, ?_⟩
  · show (!(runPageLoop [] (some 1) (baseQuery q w) q [] bs maxB).failed) = false
    rw [h1]
    rfl
  · show framing q ++ String.join (runPageLoop [] (some 1) (baseQuery q w) q [] bs
        maxB).stmts ++ (if (runPageLoop [] (some 1) (baseQuery q w) q [] bs maxB).failed
          then "" else trailer q) = framing q
    rw [h1]
    simp [String.join]
  · show (runPageLoop [] (some 1) (baseQuery q w) q [] bs maxB).logs = []
    rw [h1]

/-- C6 counterexample: for a job whose table does not exist, the failure
does not arise from the schema-introspection step: the catalog query
succeeds and returns zero columns, the framing is then written to the
backup file, and only the first paginated fetch raises - so the partial
file holds the framing, which an introspection-stage failure would never
have written. -/
theorem missingTable_framing_written :
    introspectCols (fun _ _ => Option.none) "public" "users" = [] ∧
    (backupTableDb (fun _ _ => Option.none) "public" "users" Option.none Option.none 10
        Option.none).content = framing "public.users" ∧
    (backupTableDb (fun _ _ => Option.none) "public" "users" Option.none Option.none 10
        Option.none).ok = false := by
  refine ⟨rfl, ?_, ?_⟩ <;> decide

/-- C6 (amended): a job whose table does not exist sees the catalog
introspection succeed with zero columns; the export then fails when the
first paginated fetch raises (after the framing was written), the driver
logs an error line identifying the table, and the remaining sibling jobs
in the same run are processed unchanged. -/
theorem missingTable_fails_at_first_fetch_driver_continues (db : Db) (ds nm : String)
    (job : TableJob) (pre post : List TableJob) (hname : job.name = some nm)
    (hmiss : db (match job.schema with | some s => s | Option.none => ds) nm
      = Option.none) :
    introspectCols db (match job.schema with | some s => s | Option.none => ds) nm = [] ∧
    (backupTableDb db ds nm job.schema job.whereClause job.batchSize
      job.maxBatches).ok = false ∧
    (backupTableDb db ds nm job.schema job.whereClause job.batchSize
      job.maxBatches).content = framing (qualifiedName ds job.schema nm) ∧
    jobErrorLog job.schema nm ∈ (backupDatabase db ds (pre ++ job :: post)).logs ∧
    (backupDatabase db ds (pre ++ job :: post)).files =
      (backupDatabase db ds pre).files ++
        (backupTableDb db ds nm job.schema job.whereClause job.batchSize
          job.maxBatches).content :: (backupDatabase db ds post).files := by
  have hint : introspectCols db (match job.schema with | some s => s | Option.none => ds)
      nm = [] := by
    unfold introspectCols
    rw [hmiss]
  have hbt : backupTableDb db ds nm job.schema job.whereClause job.batchSize
      job.maxBatches = backupTableModel [] (some 1) (qualifiedName ds job.schema nm) []
        job.whereClause job.batchSize job.maxBatches := by
    simp only [backupTableDb]
    rw [hmiss]
  have hm := backupTableModel_missing (qualifiedName ds job.schema nm) job.whereClause
    job.batchSize job.maxBatches
  have happ := backupDatabase_append db ds pre (job :: post)
  have hjob : backupDatabase db ds (job :: post) =
      ⟨(backupTableDb db ds nm job.schema job.whereClause job.batchSize
          job.maxBatches).content :: (backupDatabase db ds post).files,
        ((backupTableDb db ds nm job.schema job.whereClause job.batchSize
            job.maxBatches).loopOut.logs ++ [jobErrorLog job.schema nm]) ++
          (backupDatabase db ds post).logs⟩ := by
    simp only [backupDatabase, hname]
    rw [show (backupTableDb db ds nm job.schema job.whereClause job.batchSize
      job.maxBatches).ok = false from hbt ▸ hm.1]
    rfl
  refine ⟨hint, hbt ▸ hm.1, hbt ▸ hm.2.1, ?_, ?_⟩
  · rw [happ.2, hjob]
    refine List.mem_append_right _ ?_
    refine List.mem_append_left _ ?_
    exact List.mem_append_right _ (List.mem_singleton.mpr rfl)
  · rw [happ.1, hjob]

/-- C6 witness: one missing-table job between no siblings, against an empty
database. -/
theorem missingTable_fails_witness :
    introspectCols (fun _ _ => Option.none) "public" "users" = [] ∧
    (backupTableDb (fun _ _ => Option.none) "public" "users" Option.none Option.none 10
      Option.none).ok = false ∧
    (backupTableDb (fun _ _ => Option.none) "public" "users" Option.none Option.none 10
      Option.none).content = framing (qualifiedName "public" Option.none "users") ∧
    jobErrorLog Option.none "users" ∈ (backupDatabase (fun _ _ => Option.none) "public"
      ([] ++ ⟨some "users", Option.none, Option.none, 10, Option.none⟩ :: [])).logs ∧
    (backupDatabase (fun _ _ => Option.none) "public"
        ([] ++ ⟨some "users", Option.none, Option.none, 10, Option.none⟩ :: [])).files =
      (backupDatabase (fun _ _ => Option.none) "public" []).files ++
        (backupTableDb (fun _ _ => Option.none) "public" "users" Option.none Option.none
          10 Option.none).content ::
          (backupDatabase (fun _ _ => Option.none) "public" []).files :=
  missingTable_fails_at_first_fetch_driver_continues (fun _ _ => Option.none) "public"
    "users" ⟨some "users", Option.none, Option.none, 10, Option.none⟩ [] [] rfl rfl

end DumpBackup
